import Mathlib

set_option autoImplicit false

/-!
Verification of the output-binding and rendering logic of
`tableComponent.js` (and its variant in `src/unnamed/part_000`):
a Shiny custom output binding that renders a columnar payload with the
Tabulator table widget.

The definitions below are a shallow embedding of the JavaScript source:
JS objects (enumerable own string-keyed properties in insertion order)
become association lists, property assignment becomes `objSet`,
`row.forEach((val, i) => obj[columns[i]] = val)` becomes `zipRowAux`,
and the binding factory `makeShinyOutputBinding` becomes an
`Except`-valued registration function over an explicit runtime registry.
-/

/-- JavaScript scalar values appearing in payload rows and thrown errors. -/
inductive JSVal where
  | str (s : String)
  | num (n : Int)
  | boolean (b : Bool)
  | undef
deriving DecidableEq

/-- One entry of the payload's type_hints array: the repository's iterations
deliver either a bare string tag (for example "numeric") or a structured
object exposing a type field. -/
inductive TypeHint where
  | str (s : String)
  | obj (type : String)
deriving DecidableEq

/-- The enumerable own properties of a JS object, in insertion order. -/
abbrev JSObject := List (String × JSVal)

/-- Property assignment obj[k] = v: if the key already exists its value is
updated in place (insertion order kept), otherwise the new property is
appended at the end. -/
def objSet : JSObject → String → JSVal → JSObject
  | [], k, v => [(k, v)]
  | p :: ps, k, v => if p.1 = k then (k, v) :: ps else p :: objSet ps k v

/-- Property read obj[k], as an Option (none models the JS value undefined
read back from a missing property). -/
def objGet (o : JSObject) (k : String) : Option JSVal :=
  (o.find? (fun p => decide (p.1 = k))).map Prod.snd

/-- The property key produced by obj[columns[i]] in JS: an out-of-range
index reads as the value undefined, which property assignment coerces to
the string key "undefined". -/
def jsKeyAt (columns : List String) (i : Nat) : String :=
  (columns[i]?).getD "undefined"

/-- The loop body of zipRowWithColumns from tableComponent.js:
row.forEach((val, i) => obj[columns[i]] = val), threading the object. -/
def zipRowAux (columns : List String) : Nat → List JSVal → JSObject → JSObject
  | _, [], o => o
  | i, v :: vs, o => zipRowAux columns (i + 1) vs (objSet o (jsKeyAt columns i) v)

/-- zipRowWithColumns from tableComponent.js lines 27-33: builds a fresh
object and assigns obj[columns[i]] = row[i] for each index of the row. -/
def zipRowWithColumns (columns : List String) (row : List JSVal) : JSObject :=
  zipRowAux columns 0 row []

/-- The sequence of property assignments performed by zipRowWithColumns,
with each row value paired with its positional key (positions past the end
of columns resolve to the key "undefined"). -/
def pairKeys : List String → List JSVal → List (String × JSVal)
  | _, [] => []
  | [], v :: vs => ("undefined", v) :: pairKeys [] vs
  | c :: cs, v :: vs => (c, v) :: pairKeys cs vs

/-- Replay of a list of property assignments onto an object. -/
def objSetAll (o : JSObject) (pairs : List (String × JSVal)) : JSObject :=
  pairs.foldl (fun o p => objSet o p.1 p.2) o

/-- Index of the last occurrence of a name in the columns list, if any. -/
def lastOccIdx : List String → String → Option Nat
  | [], _ => none
  | c :: cs, s =>
    match lastOccIdx cs s with
    | some j => some (j + 1)
    | none => if c = s then some 0 else none

theorem drop_cons_getElem? :
    ∀ (l : List String) (i : Nat) (c : String) (cs : List String),
      l.drop i = c :: cs → l[i]? = some c ∧ l.drop (i + 1) = cs := by
  intro l
  induction l with
  | nil => intro i c cs h; simp at h
  | cons x xs ih =>
    intro i c cs h
    cases i with
    | zero =>
      simp at h
      simp [h.1, h.2]
    | succ j =>
      simp only [List.drop_succ_cons] at h
      simpa using ih j c cs h

theorem drop_nil_getElem? :
    ∀ (l : List String) (i : Nat), l.drop i = [] → l[i]? = none ∧ l.drop (i + 1) = [] := by
  intro l
  induction l with
  | nil => intro i _; simp
  | cons x xs ih =>
    intro i h
    cases i with
    | zero => simp at h
    | succ j =>
      simp only [List.drop_succ_cons] at h
      simpa using ih j h

theorem zipRowAux_eq_objSetAll (columns : List String) :
    ∀ (row : List JSVal) (i : Nat) (o : JSObject),
      zipRowAux columns i row o = objSetAll o (pairKeys (columns.drop i) row) := by
  intro row
  induction row with
  | nil => intro i o; cases columns.drop i <;> simp [zipRowAux, pairKeys, objSetAll]
  | cons v vs ih =>
    intro i o
    rcases hd : columns.drop i with _ | ⟨c, cs⟩
    · obtain ⟨h1, h2⟩ := drop_nil_getElem? columns i hd
      simp [zipRowAux, pairKeys, objSetAll, jsKeyAt, h1, ih (i + 1) _, h2]
    · obtain ⟨h1, h2⟩ := drop_cons_getElem? columns i c cs hd
      simp [zipRowAux, pairKeys, objSetAll, jsKeyAt, h1, ih (i + 1) _, h2]

theorem zipRowWithColumns_eq (columns : List String) (row : List JSVal) :
    zipRowWithColumns columns row = objSetAll [] (pairKeys columns row) := by
  simpa using zipRowAux_eq_objSetAll columns row 0 []

theorem objGet_cons (p : String × JSVal) (ps : JSObject) (k : String) :
    objGet (p :: ps) k = if p.1 = k then some p.2 else objGet ps k := by
  by_cases h : p.1 = k <;> simp [objGet, List.find?, h]

theorem objGet_objSet (o : JSObject) (k k' : String) (v : JSVal) :
    objGet (objSet o k v) k' = if k' = k then some v else objGet o k' := by
  induction o with
  | nil =>
    rcases eq_or_ne k' k with h | h
    · subst h; simp [objSet, objGet_cons]
    · simp [objSet, objGet_cons, h, Ne.symm h, objGet]
  | cons p ps ih =>
    rcases eq_or_ne p.1 k with hpk | hpk
    · rcases eq_or_ne k' k with h | h
      · subst h; simp [objSet, hpk, objGet_cons]
      · simp [objSet, hpk, objGet_cons, h, Ne.symm h]
    · rcases eq_or_ne k' p.1 with h2 | h2
      · have hk : k' ≠ k := by rw [h2]; exact hpk
        simp [objSet, hpk, objGet_cons, h2.symm, hk]
      · simp [objSet, hpk, objGet_cons, Ne.symm h2, ih]

theorem objSet_of_not_mem (o : JSObject) (k : String) (v : JSVal)
    (h : k ∉ o.map Prod.fst) : objSet o k v = o ++ [(k, v)] := by
  induction o with
  | nil => rfl
  | cons p ps ih =>
    simp only [List.map_cons, List.mem_cons, not_or] at h
    simp [objSet, Ne.symm h.1, ih h.2]

theorem objSet_keys_of_mem (o : JSObject) (k : String) (v : JSVal)
    (h : k ∈ o.map Prod.fst) : (objSet o k v).map Prod.fst = o.map Prod.fst := by
  induction o with
  | nil => simp at h
  | cons p ps ih =>
    rcases eq_or_ne p.1 k with hpk | hpk
    · simp [objSet, hpk]
    · simp only [List.map_cons, List.mem_cons, Ne.symm hpk, false_or] at h
      simp [objSet, hpk, ih h]

theorem mem_keys_objSet (o : JSObject) (k s : String) (v : JSVal) :
    s ∈ (objSet o k v).map Prod.fst ↔ s ∈ o.map Prod.fst ∨ s = k := by
  by_cases h : k ∈ o.map Prod.fst
  · rw [objSet_keys_of_mem o k v h]
    constructor
    · exact Or.inl
    · rintro (hs | rfl)
      · exact hs
      · exact h
  · rw [objSet_of_not_mem o k v h]
    simp

theorem objSet_keys_nodup (o : JSObject) (k : String) (v : JSVal)
    (h : (o.map Prod.fst).Nodup) : ((objSet o k v).map Prod.fst).Nodup := by
  by_cases hm : k ∈ o.map Prod.fst
  · rw [objSet_keys_of_mem o k v hm]; exact h
  · rw [objSet_of_not_mem o k v hm]
    simp only [List.map_append, List.map_cons, List.map_nil]
    rw [List.nodup_append]
    refine ⟨h, List.nodup_singleton k, ?_⟩
    intro a ha hak
    rw [List.mem_singleton] at hak
    subst hak
    exact hm ha

theorem objSet_append_last (o : JSObject) (c : String) (v v' : JSVal)
    (h : c ∉ o.map Prod.fst) : objSet (o ++ [(c, v)]) c v' = o ++ [(c, v')] := by
  induction o with
  | nil => simp [objSet]
  | cons p ps ih =>
    simp only [List.map_cons, List.mem_cons, not_or] at h
    simp [objSet, Ne.symm h.1, ih h.2]

theorem objSetAll_append (o : JSObject) (l₁ l₂ : List (String × JSVal)) :
    objSetAll o (l₁ ++ l₂) = objSetAll (objSetAll o l₁) l₂ := by
  simp [objSetAll, List.foldl_append]

theorem mem_keys_objSetAll (pairs : List (String × JSVal)) :
    ∀ (o : JSObject) (s : String),
      s ∈ (objSetAll o pairs).map Prod.fst ↔ s ∈ o.map Prod.fst ∨ s ∈ pairs.map Prod.fst := by
  induction pairs with
  | nil => simp [objSetAll]
  | cons p ps ih =>
    intro o s
    show s ∈ (objSetAll (objSet o p.1 p.2) ps).map Prod.fst ↔ _
    rw [ih, mem_keys_objSet]
    simp only [List.map_cons, List.mem_cons]
    tauto

theorem keys_objSetAll_nodup (pairs : List (String × JSVal)) :
    ∀ (o : JSObject), (o.map Prod.fst).Nodup → ((objSetAll o pairs).map Prod.fst).Nodup := by
  induction pairs with
  | nil => intro o h; exact h
  | cons p ps ih =>
    intro o h
    exact ih (objSet o p.1 p.2) (objSet_keys_nodup o p.1 p.2 h)

theorem objSetAll_fresh (pairs : List (String × JSVal)) :
    ∀ (o : JSObject), (pairs.map Prod.fst).Nodup →
      (∀ k ∈ pairs.map Prod.fst, k ∉ o.map Prod.fst) →
      objSetAll o pairs = o ++ pairs := by
  induction pairs with
  | nil => intro o _ _; simp [objSetAll]
  | cons p ps ih =>
    intro o hnd hfresh
    simp only [List.map_cons, List.nodup_cons] at hnd
    have hp : p.1 ∉ o.map Prod.fst := hfresh p.1 (by simp)
    show objSetAll (objSet o p.1 p.2) ps = o ++ p :: ps
    rw [objSet_of_not_mem o p.1 p.2 hp]
    rw [ih (o ++ [(p.1, p.2)]) hnd.2]
    · simp
    · intro k hk
      simp only [List.map_append, List.map_cons, List.map_nil, List.mem_append,
        List.mem_singleton, not_or]
      refine ⟨hfresh k (by simp [hk]), ?_⟩
      intro hkp
      exact hnd.1 (hkp ▸ hk)

theorem objSetAll_const_key (vs : List JSVal) :
    ∀ (o : JSObject) (c : String) (v : JSVal), c ∉ o.map Prod.fst →
      objSetAll (o ++ [(c, v)]) (vs.map (fun w => (c, w))) = o ++ [(c, vs.getLastD v)] := by
  induction vs with
  | nil => intro o c v _; simp [objSetAll]
  | cons w ws ih =>
    intro o c v hc
    show objSetAll (objSet (o ++ [(c, v)]) c w) (ws.map (fun w => (c, w))) = _
    rw [objSet_append_last o c v w hc, ih o c w hc, List.getLastD_cons]

theorem objGet_append (o₁ o₂ : JSObject) (s : String) :
    objGet (o₁ ++ o₂) s =
      match objGet o₁ s with
      | some v => some v
      | none => objGet o₂ s := by
  induction o₁ with
  | nil => simp [objGet]
  | cons p ps ih =>
    rcases eq_or_ne p.1 s with h | h
    · simp [objGet_cons, h]
    · simp [objGet_cons, h, ih]

theorem pairKeys_eq_zip :
    ∀ (cs : List String) (rs : List JSVal), rs.length ≤ cs.length → pairKeys cs rs = cs.zip rs := by
  intro cs
  induction cs with
  | nil =>
    intro rs h
    cases rs with
    | nil => rfl
    | cons r rs' => simp at h
  | cons c cs' ih =>
    intro rs h
    cases rs with
    | nil => simp [pairKeys]
    | cons r rs' =>
      simp only [pairKeys, List.zip_cons_cons, List.cons.injEq, true_and]
      exact ih rs' (by simpa using h)

theorem pairKeys_nil (rs : List JSVal) :
    pairKeys [] rs = rs.map (fun v => ("undefined", v)) := by
  induction rs with
  | nil => rfl
  | cons r rs' ih => simp [pairKeys, ih]

theorem pairKeys_long :
    ∀ (cs : List String) (rs : List JSVal), cs.length < rs.length →
      pairKeys cs rs =
        cs.zip (rs.take cs.length) ++ (rs.drop cs.length).map (fun v => ("undefined", v)) := by
  intro cs
  induction cs with
  | nil => intro rs _; simp [pairKeys_nil]
  | cons c cs' ih =>
    intro rs h
    cases rs with
    | nil => simp at h
    | cons r rs' =>
      simp only [List.length_cons] at h
      have h' : cs'.length < rs'.length := by omega
      simp [pairKeys, List.take_succ_cons, List.drop_succ_cons, List.zip_cons_cons, ih rs' h']

theorem map_fst_zip_take :
    ∀ (cs : List String) (rs : List JSVal), (cs.zip rs).map Prod.fst = cs.take rs.length := by
  intro cs
  induction cs with
  | nil => intro rs; simp
  | cons c cs' ih =>
    intro rs
    cases rs with
    | nil => simp
    | cons r rs' => simp [ih]

theorem zip_take_left :
    ∀ (cs : List String) (rs : List JSVal), cs.zip rs = (cs.take rs.length).zip rs := by
  intro cs
  induction cs with
  | nil => intro rs; simp
  | cons c cs' ih =>
    intro rs
    cases rs with
    | nil => simp
    | cons r rs' => simp [List.take_succ_cons, List.zip_cons_cons, ih rs']

theorem objGet_zip_nodup :
    ∀ (cs : List String) (rs : List JSVal) (i : Nat) (c : String),
      cs.Nodup → cs[i]? = some c → objGet (cs.zip rs) c = rs[i]? := by
  intro cs
  induction cs with
  | nil => intro rs i c _ h; simp at h
  | cons c₀ cs' ih =>
    intro rs i c hnd h
    cases rs with
    | nil => simp [objGet]
    | cons r rs' =>
      cases i with
      | zero =>
        simp only [List.getElem?_cons_zero, Option.some.injEq] at h
        subst h
        simp [objGet_cons]
      | succ j =>
        simp only [List.getElem?_cons_succ] at h
        have hc : c ∈ cs' := List.getElem?_mem h
        have hne : c₀ ≠ c := fun he => (List.nodup_cons.mp hnd).1 (he ▸ hc)
        simp [objGet_cons, hne, ih rs' j c (List.nodup_cons.mp hnd).2 h]

theorem objGet_objSetAll_zip_lastOcc :
    ∀ (cs : List String) (rs : List JSVal) (o : JSObject) (s : String),
      cs.length = rs.length →
      objGet (objSetAll o (cs.zip rs)) s =
        match lastOccIdx cs s with
        | some j => rs[j]?
        | none => objGet o s := by
  intro cs
  induction cs with
  | nil =>
    intro rs o s h
    have : rs = [] := List.eq_nil_of_length_eq_zero h.symm
    subst this
    simp [objSetAll, lastOccIdx]
  | cons c cs' ih =>
    intro rs o s h
    cases rs with
    | nil => simp at h
    | cons r rs' =>
      simp only [List.length_cons, Nat.add_right_cancel_iff] at h
      show objGet (objSetAll (objSet o c r) (cs'.zip rs')) s = _
      rw [ih rs' (objSet o c r) s h]
      rcases hlo : lastOccIdx cs' s with _ | j
      · rw [objGet_objSet]
        rcases eq_or_ne c s with hcs | hcs
        · subst hcs
          simp [lastOccIdx, hlo]
        · simp [lastOccIdx, hlo, hcs, Ne.symm hcs]
      · simp [lastOccIdx, hlo]

theorem zipRowWithColumns_get_lastOcc (cs : List String) (rs : List JSVal) (s : String)
    (h : rs.length = cs.length) :
    objGet (zipRowWithColumns cs rs) s = (lastOccIdx cs s).bind (fun j => rs[j]?) := by
  rw [zipRowWithColumns_eq, pairKeys_eq_zip cs rs (le_of_eq h),
    objGet_objSetAll_zip_lastOcc cs rs [] s h.symm]
  cases hlo : lastOccIdx cs s <;> simp [objGet]

theorem zipRowWithColumns_eq_zip (cs : List String) (rs : List JSVal)
    (hnd : cs.Nodup) (h : rs.length ≤ cs.length) :
    zipRowWithColumns cs rs = (cs.take rs.length).zip rs := by
  rw [zipRowWithColumns_eq, pairKeys_eq_zip cs rs h]
  have hfresh := objSetAll_fresh (cs.zip rs) []
    (by rw [map_fst_zip_take]; exact List.Nodup.sublist (List.take_sublist _ _) hnd)
    (by intro k _; simp)
  rw [hfresh, List.nil_append, zip_take_left]

/-- Strict JS equality of a type_hints entry against the string literal
"numeric", as in the source expression type_hints[i] === "numeric": true only
for the bare string "numeric"; false for any object hint, any other string,
and an out-of-range (undefined) entry. -/
def hintStrictEqNumeric : Option TypeHint → Bool
  | some (TypeHint.str s) => s == "numeric"
  | _ => false

/-- Numeric test as the specification words it (claim C2): it accepts either
the bare string tag "numeric" or a structured hint object whose type field
equals "numeric". Kept separate from hintStrictEqNumeric, which embeds the
source. -/
def specDenotesNumeric : Option TypeHint → Bool
  | some (TypeHint.str s) => s == "numeric"
  | some (TypeHint.obj t) => t == "numeric"
  | none => false

/-- Column definition handed to Tabulator. -/
structure ColumnDef where
  title : String
  field : String
  hozAlign : String
deriving DecidableEq

/-- Loop of columns.map((col, i) => ...) from tableComponent.js lines 16-22,
carrying the running index i. -/
def mkColumnsDefFrom (type_hints : List TypeHint) : Nat → List String → List ColumnDef
  | _, [] => []
  | i, col :: rest =>
    { title := col, field := col,
      hozAlign := if hintStrictEqNumeric type_hints[i]? then "right" else "left" }
      :: mkColumnsDefFrom type_hints (i + 1) rest

/-- columnsDef from tableComponent.js lines 16-22. -/
def mkColumnsDef (columns : List String) (type_hints : List TypeHint) : List ColumnDef :=
  mkColumnsDefFrom type_hints 0 columns

theorem mkColumnsDefFrom_getElem? (type_hints : List TypeHint) :
    ∀ (cols : List String) (i j : Nat),
      (mkColumnsDefFrom type_hints i cols)[j]? =
        (cols[j]?).map (fun col =>
          { title := col, field := col,
            hozAlign :=
              if hintStrictEqNumeric type_hints[i + j]? then "right" else "left" }) := by
  intro cols
  induction cols with
  | nil => intro i j; simp [mkColumnsDefFrom]
  | cons col rest ih =>
    intro i j
    cases j with
    | zero => simp [mkColumnsDefFrom]
    | succ j' =>
      have harith : i + 1 + j' = i + (j' + 1) := by omega
      simp only [mkColumnsDefFrom, List.getElem?_cons_succ]
      rw [ih (i + 1) j', harith]

theorem mkColumnsDefFrom_length (type_hints : List TypeHint) :
    ∀ (cols : List String) (i : Nat), (mkColumnsDefFrom type_hints i cols).length = cols.length := by
  intro cols
  induction cols with
  | nil => intro i; rfl
  | cons col rest ih => intro i; simp [mkColumnsDefFrom, ih (i + 1)]

/-- Wire payload produced by the server render function: column names, rows,
and per-column type hints. -/
structure RenderPayload where
  columns : List String
  data : List (List JSVal)
  type_hints : List TypeHint
deriving DecidableEq

/-- Options object passed to new Tabulator in tableComponent.js lines 36-40. -/
structure TabulatorOptions where
  data : List JSObject
  layout : String
  columns : List ColumnDef
deriving DecidableEq

/-- Handle of an instantiated Tabulator widget, remembering the options it
was constructed from. -/
structure Tabulator where
  options : TabulatorOptions
deriving DecidableEq

/-- Observable state of a managed DOM element: its class token list, its
visible text, and the table widget currently hosted in it (if any). -/
structure Element where
  classes : List String
  innerText : String
  widget : Option Tabulator
deriving DecidableEq

/-- Modelled from the spec: the external Tabulator constructor
(new Tabulator(el, options)) is third-party code outside this repository;
per spec section 4.2 it (re)instantiates the widget bound to the element so
that the resulting table reflects only options.data, fully replacing any
previous visual content. -/
def newTabulator (el : Element) (opts : TabulatorOptions) : Element :=
  { el with widget := some { options := opts } }

/-- Number of rows visibly populated in the element's table widget. -/
def visibleRowCount (el : Element) : Nat :=
  match el.widget with
  | some w => w.options.data.length
  | none => 0

/-- Construction of the options object for new Tabulator (tableComponent.js
lines 36-40): row objects, fitColumns layout, column definitions. -/
def tabulatorOptions (payload : RenderPayload) : TabulatorOptions :=
  { data := payload.data.map (zipRowWithColumns payload.columns)
    layout := "fitColumns"
    columns := mkColumnsDef payload.columns payload.type_hints }

/-- The onRender callback of the Tabulator adapter (tableComponent.js
lines 11-41): unpack the payload, transform it, and (re)instantiate the
widget on the element. -/
def onRenderTabulator (el : Element) (payload : RenderPayload) : Element :=
  newTabulator el (tabulatorOptions payload)

/-- el.classList.add(c): appends the token unless already present. -/
def classListAdd (cs : List String) (c : String) : List String :=
  if c ∈ cs then cs else cs ++ [c]

/-- el.classList.remove(c): removes every occurrence of the token. -/
def classListRemove (cs : List String) (c : String) : List String :=
  cs.filter (fun x => decide (x ≠ c))

/-- Default onError handler from tableComponent.js lines 87-90: add the class
"shiny-output-error" and set the text to "Error rendering " followed by the
binding name. -/
def defaultOnError (name : String) (el : Element) (_err : JSVal) : Element :=
  { el with classes := classListAdd el.classes "shiny-output-error",
            innerText := "Error rendering " ++ name }

/-- Default onClearError handler from tableComponent.js lines 91-94: remove
the class "shiny-output-error" and set the text to the empty string. -/
def defaultOnClearError (el : Element) : Element :=
  { el with classes := classListRemove el.classes "shiny-output-error",
            innerText := "" }

/-- DOM subtree rooted at a node: the node's class token list plus its
children. -/
inductive Dom where
  | node (classes : List String) (children : List Dom)

/-- Class token list of the root node of a DOM subtree. -/
def Dom.classes : Dom → List String
  | .node cs _ => cs

/-- Children of the root node of a DOM subtree. -/
def Dom.children : Dom → List Dom
  | .node _ ch => ch

mutual
/-- find(scope) from tableComponent.js lines 99-101: the jQuery expression
$(scope).find("." + bindingElementClass) returns the descendants of scope, in
document (preorder) order, whose class token list contains the class. -/
def findJS (cls : String) : Dom → List Dom
  | .node _ ch => findJSAux cls ch

/-- Document-order traversal of a forest for findJS. -/
def findJSAux (cls : String) : List Dom → List Dom
  | [] => []
  | c :: cs => (if cls ∈ c.classes then [c] else []) ++ findJS cls c ++ findJSAux cls cs
end

mutual
/-- Specification-side definition: all proper descendants of a node, in
document (preorder) order. -/
def descendantsList : Dom → List Dom
  | .node _ ch => descendantsAux ch

/-- Document-order traversal of a forest for descendantsList. -/
def descendantsAux : List Dom → List Dom
  | [] => []
  | c :: cs => c :: (descendantsList c ++ descendantsAux cs)
end

/-- Appending a new child element to the root of a DOM subtree, as happens
between two discovery calls when the page changes. -/
def appendChild : Dom → Dom → Dom
  | .node cs ch, e => .node cs (ch ++ [e])

/-- The four methods a registered output binding object exposes to the host
runtime. -/
structure BindingObject where
  find : Dom → List Dom
  renderValue : Element → RenderPayload → Except JSVal Element
  renderError : Element → JSVal → Element
  clearError : Element → Element

/-- Options accepted by makeShinyOutputBinding before defaulting; an omitted
optional entry is none. -/
structure BindingConfig where
  name : String
  bindingElementClass : Option String := none
  onRender : Element → RenderPayload → Except JSVal Element
  onError : Option (Element → JSVal → Element) := none
  onClearError : Option (Element → Element) := none

namespace CustomOutputBinding

/-- renderValue(el, payload) from tableComponent.js lines 103-105: the whole
body is the single unguarded call onRender(el, payload). The callback result
type is kept generic so the same definition covers both the
exception-carrying semantics and the invocation-counting instrumentation. -/
def renderValue {β : Type} (onRender : Element → RenderPayload → β)
    (el : Element) (payload : RenderPayload) : β :=
  onRender el payload

end CustomOutputBinding

/-- Construction of the binding object inside makeShinyOutputBinding
(tableComponent.js lines 96-115), with the destructuring defaults applied:
bindingElementClass defaults to name, onError and onClearError default to
defaultOnError and defaultOnClearError. -/
def mkBindingObject (cfg : BindingConfig) : BindingObject :=
  { find := fun scope => findJS (cfg.bindingElementClass.getD cfg.name) scope
    renderValue := fun el payload => CustomOutputBinding.renderValue cfg.onRender el payload
    renderError := fun el err => (cfg.onError.getD (defaultOnError cfg.name)) el err
    clearError := fun el => (cfg.onClearError.getD defaultOnClearError) el }

/-- Host runtime state: the process-wide output binding registry. -/
structure ShinyRuntime where
  outputBindings : List (String × BindingObject)

/-- Shiny.outputBindings.register(binding, name). -/
def outputBindingsRegister (rt : ShinyRuntime) (b : BindingObject) (name : String) :
    ShinyRuntime :=
  { outputBindings := rt.outputBindings ++ [(name, b)] }

/-- makeShinyOutputBinding from tableComponent.js lines 83-119: when the
Shiny runtime is present in the execution context, build and register the
binding object; when it is absent, fail with the error message
"Failed to bind (name) to Shiny runtime." without registering anything. -/
def makeShinyOutputBinding (shiny : Option ShinyRuntime) (cfg : BindingConfig) :
    Except String ShinyRuntime :=
  match shiny with
  | some rt => Except.ok (outputBindingsRegister rt (mkBindingObject cfg) cfg.name)
  | none => Except.error ("Failed to bind " ++ cfg.name ++ " to Shiny runtime.")

/-- Record of one invocation of the configured onRender callback. -/
structure RenderCall where
  el : Element
  payload : RenderPayload
deriving DecidableEq

/-- Instrumentation of a pure rendering callback: it computes the same result
and additionally logs each of its own invocations, so that the number of
times renderValue invokes the callback becomes observable. -/
def tracedHandler (f : Element → RenderPayload → Element)
    (el : Element) (payload : RenderPayload) : Element × List RenderCall :=
  (f el payload, [{ el := el, payload := payload }])

/-- The configuration object passed to makeShinyOutputBinding at the top of
tableComponent.js (lines 9-42): the name "shiny-tabulator-output", the
Tabulator adapter as onRender, and every optional entry omitted. -/
def tabulatorBindingConfig : BindingConfig :=
  { name := "shiny-tabulator-output"
    onRender := fun el payload => Except.ok (onRenderTabulator el payload) }

theorem objGet_eq_none_of_not_mem (o : JSObject) (s : String)
    (h : s ∉ o.map Prod.fst) : objGet o s = none := by
  induction o with
  | nil => rfl
  | cons p ps ih =>
    simp only [List.map_cons, List.mem_cons, not_or] at h
    rw [objGet_cons, if_neg (Ne.symm h.1)]
    exact ih h.2

theorem getLast?_cons_getLastD : ∀ (l : List JSVal) (a : JSVal),
    (a :: l).getLast? = some (l.getLastD a) := by
  intro l
  induction l with
  | nil => intro a; rfl
  | cons b l' ih =>
    intro a
    rw [List.getLast?_cons_cons, List.getLastD_cons]
    exact ih b

theorem hintStrictEqNumeric_iff (o : Option TypeHint) :
    hintStrictEqNumeric o = true ↔ o = some (TypeHint.str "numeric") := by
  cases o with
  | none => simp [hintStrictEqNumeric]
  | some th => cases th <;> simp [hintStrictEqNumeric]

theorem classListRemove_classListAdd (cs : List String) (c : String) (h : c ∉ cs) :
    classListRemove (classListAdd cs c) c = cs := by
  rw [classListAdd, if_neg h, classListRemove, List.filter_append]
  have h1 : cs.filter (fun x => decide (x ≠ c)) = cs := by
    rw [List.filter_eq_self]
    intro a ha
    simp only [decide_eq_true_eq]
    intro he
    exact h (he ▸ ha)
  have h2 : [c].filter (fun x => decide (x ≠ c)) = [] := by simp
  rw [h1, h2, List.append_nil]

mutual
theorem findJS_eq_filter (cls : String) : ∀ (d : Dom),
    findJS cls d = (descendantsList d).filter (fun x => decide (cls ∈ x.classes))
  | .node cs ch => by
    rw [findJS, descendantsList, findJSAux_eq_filter cls ch]

theorem findJSAux_eq_filter (cls : String) : ∀ (ds : List Dom),
    findJSAux cls ds = (descendantsAux ds).filter (fun x => decide (cls ∈ x.classes))
  | [] => by rw [findJSAux, descendantsAux]; rfl
  | c :: cs => by
    rw [findJSAux, descendantsAux, List.filter_cons, List.filter_append,
      findJS_eq_filter cls c, findJSAux_eq_filter cls cs]
    by_cases h : cls ∈ c.classes <;> simp [h]
end

theorem findJSAux_append (cls : String) (l₁ l₂ : List Dom) :
    findJSAux cls (l₁ ++ l₂) = findJSAux cls l₁ ++ findJSAux cls l₂ := by
  induction l₁ with
  | nil => simp [findJSAux]
  | cons c cs ih => simp [findJSAux, ih, List.append_assoc]

/-- Claim C3: when the Shiny host runtime is absent from the execution
context, makeShinyOutputBinding fails fast with the binding-failure error,
and no runtime state in which a binding was registered is produced —
construction leaves no partial state. -/
theorem makeShinyOutputBinding_no_runtime_fails (cfg : BindingConfig) :
    makeShinyOutputBinding none cfg =
      Except.error ("Failed to bind " ++ cfg.name ++ " to Shiny runtime.")
    ∧ ∀ rt' : ShinyRuntime, makeShinyOutputBinding none cfg ≠ Except.ok rt' := by
  refine ⟨rfl, ?_⟩
  intro rt' h
  simp [makeShinyOutputBinding] at h

/-- Witness for C3 at the concrete tabulator binding configuration. -/
theorem makeShinyOutputBinding_no_runtime_fails_witness :
    makeShinyOutputBinding none tabulatorBindingConfig =
      Except.error "Failed to bind shiny-tabulator-output to Shiny runtime." := by
  rw [(makeShinyOutputBinding_no_runtime_fails tabulatorBindingConfig).1]
  rfl

/-- Claim C5: when onError is omitted from the binding configuration, the
default error handler adds the class "shiny-output-error" to the element and
sets its visible text to "Error rendering " followed by the binding name;
when onClearError is omitted, the default removes that class and sets the
text to the empty string; a supplied custom handler fully replaces the
corresponding default, with no combination of both. -/
theorem binding_default_error_handlers (cfg : BindingConfig) :
    (cfg.onError = none → ∀ (el : Element) (err : JSVal),
      (mkBindingObject cfg).renderError el err =
        { el with classes := classListAdd el.classes "shiny-output-error",
                  innerText := "Error rendering " ++ cfg.name })
    ∧ (cfg.onClearError = none → ∀ (el : Element),
      (mkBindingObject cfg).clearError el =
        { el with classes := classListRemove el.classes "shiny-output-error",
                  innerText := "" })
    ∧ (∀ f, cfg.onError = some f → ∀ (el : Element) (err : JSVal),
        (mkBindingObject cfg).renderError el err = f el err)
    ∧ (∀ g, cfg.onClearError = some g → ∀ (el : Element),
        (mkBindingObject cfg).clearError el = g el) := by
  refine ⟨?_, ?_, ?_, ?_⟩
  · intro h el err
    simp [mkBindingObject, h, defaultOnError]
  · intro h el
    simp [mkBindingObject, h, defaultOnClearError]
  · intro f h el err
    simp [mkBindingObject, h]
  · intro g h el
    simp [mkBindingObject, h]

/-- Witness for C5: the tabulator configuration omits onError and
onClearError, so the defaults apply to a concrete element. -/
theorem binding_default_error_handlers_witness :
    (mkBindingObject tabulatorBindingConfig).renderError
        { classes := [], innerText := "", widget := none } JSVal.undef =
      { classes := ["shiny-output-error"],
        innerText := "Error rendering shiny-tabulator-output", widget := none }
    ∧ (mkBindingObject tabulatorBindingConfig).clearError
        { classes := ["shiny-output-error"], innerText := "boom", widget := none } =
      { classes := [], innerText := "", widget := none } := by
  constructor
  · rw [(binding_default_error_handlers tabulatorBindingConfig).1 rfl
      { classes := [], innerText := "", widget := none } JSVal.undef]
    decide
  · rw [(binding_default_error_handlers tabulatorBindingConfig).2.1 rfl
      { classes := ["shiny-output-error"], innerText := "boom", widget := none }]
    decide

/-- Claim C6: renderValue(el, payload) is the single unguarded synchronous
call onRender(el, payload): the registered binding's renderValue returns
exactly what the configured onRender returns, an exceptional result of
onRender (such as a widget-construction failure) propagates unchanged, and
under the invocation-logging instrumentation the callback is invoked exactly
once per renderValue call, with exactly the given element and payload. -/
theorem renderValue_invokes_onRender_once_unguarded :
    (∀ (cfg : BindingConfig) (el : Element) (payload : RenderPayload),
      (mkBindingObject cfg).renderValue el payload = cfg.onRender el payload)
    ∧ (∀ (f : Element → RenderPayload → Except JSVal Element)
        (el : Element) (payload : RenderPayload) (e : JSVal),
      f el payload = Except.error e →
        CustomOutputBinding.renderValue f el payload = Except.error e)
    ∧ (∀ (g : Element → RenderPayload → Element) (el : Element) (payload : RenderPayload),
      CustomOutputBinding.renderValue (tracedHandler g) el payload =
        (g el payload, [{ el := el, payload := payload }])) := by
  exact ⟨fun cfg el payload => rfl, fun f el payload e h => h, fun g el payload => rfl⟩

/-- Witness for C6: a callback that fails with a concrete error propagates it
through renderValue unchanged. -/
theorem renderValue_invokes_onRender_once_witness :
    CustomOutputBinding.renderValue
        (fun (_ : Element) (_ : RenderPayload) =>
          (Except.error (JSVal.str "boom") : Except JSVal Element))
        { classes := [], innerText := "", widget := none }
        { columns := [], data := [], type_hints := [] }
      = (Except.error (JSVal.str "boom") : Except JSVal Element) :=
  renderValue_invokes_onRender_once_unguarded.2.1 _
    { classes := [], innerText := "", widget := none }
    { columns := [], data := [], type_hints := [] } (JSVal.str "boom") rfl

/-- Claim C8: invoking the render operation twice in succession on the same
element with the same payload leaves the element's visible row count equal
to payload.data.length — the second render fully replaces the first render's
visual content, with no duplicated or stale rows accumulating (the widget
replacement behaviour is modelled from the spec). -/
theorem render_twice_row_count (el : Element) (payload : RenderPayload) :
    visibleRowCount (onRenderTabulator (onRenderTabulator el payload) payload)
      = payload.data.length
    ∧ visibleRowCount (onRenderTabulator el payload) = payload.data.length := by
  constructor <;>
    simp [onRenderTabulator, newTabulator, visibleRowCount, tabulatorOptions]

/-- Claim C4: find(scope) returns exactly the descendant elements of scope
whose class list contains the configured element class (which defaults to
the binding name), recomputed fresh from the current tree on every call with
no caching — appending a matching element to the scope between two calls
changes the second call's result, which now also lists the new element and
its matching descendants. -/
theorem find_returns_descendants_with_class :
    (∀ (cls : String) (scope : Dom),
      findJS cls scope = (descendantsList scope).filter (fun x => decide (cls ∈ x.classes)))
    ∧ (∀ (cfg : BindingConfig), cfg.bindingElementClass = none →
      ∀ (scope : Dom), (mkBindingObject cfg).find scope = findJS cfg.name scope)
    ∧ (∀ (cls : String) (scope e : Dom), cls ∈ e.classes →
      findJS cls (appendChild scope e) = findJS cls scope ++ e :: findJS cls e) := by
  refine ⟨findJS_eq_filter, ?_, ?_⟩
  · intro cfg h scope
    simp [mkBindingObject, h]
  · intro cls scope e he
    cases scope with
    | node cs ch =>
      rw [appendChild, findJS, findJSAux_append, findJS]
      simp [findJSAux, he]

/-- Witness for C4: appending a concrete element carrying the binding class
to an empty scope makes the next find call return it. -/
theorem find_returns_descendants_with_class_witness :
    findJS "shiny-tabulator-output"
        (appendChild (Dom.node [] []) (Dom.node ["shiny-tabulator-output"] []))
      = findJS "shiny-tabulator-output" (Dom.node [] [])
        ++ Dom.node ["shiny-tabulator-output"] []
          :: findJS "shiny-tabulator-output" (Dom.node ["shiny-tabulator-output"] []) :=
  find_returns_descendants_with_class.2.2 "shiny-tabulator-output" (Dom.node [] [])
    (Dom.node ["shiny-tabulator-output"] []) (by simp [Dom.classes])

/-- Claim C2 (amended): for every index i the produced column definition has
title = field = columns[i], and its horizontal alignment is "right" if and
only if type_hints[i] is strictly equal to the bare string "numeric"; a
structured hint object whose type field is "numeric" does not count as
numeric (contrary to the original claim's either-shape test) and yields
"left". -/
theorem columnsDef_title_field_align (columns : List String) (type_hints : List TypeHint)
    (i : Nat) (c : String) (h : columns[i]? = some c) :
    (mkColumnsDef columns type_hints).length = columns.length
    ∧ (mkColumnsDef columns type_hints)[i]? = some
        { title := c, field := c,
          hozAlign :=
            if type_hints[i]? = some (TypeHint.str "numeric") then "right" else "left" } := by
  constructor
  · exact mkColumnsDefFrom_length type_hints columns 0
  · have hg := mkColumnsDefFrom_getElem? type_hints columns 0 i
    rw [Nat.zero_add] at hg
    rw [mkColumnsDef, hg, h, Option.map_some']
    congr 1
    by_cases hb : hintStrictEqNumeric type_hints[i]? = true
    · rw [if_pos hb, if_pos ((hintStrictEqNumeric_iff _).mp hb)]
    · rw [if_neg hb, if_neg (fun hh => hb ((hintStrictEqNumeric_iff _).mpr hh))]

/-- Witness for C2 at the spec's end-to-end example columns: "name" with a
character hint is left-aligned, "mpg" with the bare string hint "numeric" is
right-aligned. -/
theorem columnsDef_title_field_align_witness :
    (mkColumnsDef ["name", "mpg"] [TypeHint.str "character", TypeHint.str "numeric"])[1]?
      = some { title := "mpg", field := "mpg", hozAlign := "right" } := by
  have h := (columnsDef_title_field_align ["name", "mpg"]
    [TypeHint.str "character", TypeHint.str "numeric"] 1 "mpg" rfl).2
  rw [h]
  rfl

/-- Counterexample to claim C2 as stated: for columns = ["x"] with the
structured hint object whose type field equals "numeric" — a hint the
claim's either-shape numeric test accepts — the code produces hozAlign
"left", not "right", because the source tests type_hints[i] === "numeric"
and an object is never strictly equal to a string. -/
theorem columnsDef_object_hint_counterexample :
    specDenotesNumeric (some (TypeHint.obj "numeric")) = true
    ∧ mkColumnsDef ["x"] [TypeHint.obj "numeric"]
        = [{ title := "x", field := "x", hozAlign := "left" }] := by
  exact ⟨rfl, rfl⟩

/-- Claim C7 (amended): under the default handlers, renderError followed by
clearError always leaves the error marker class absent and the text empty;
this matches the element's full pre-error state exactly when the element
started with the marker class absent and empty text — the original claim's
unconditional "matching the state before" fails for elements whose pre-error
text was non-empty (see the counterexample). -/
theorem error_roundtrip_clears_marker_and_text (name : String) (el : Element) (err : JSVal) :
    "shiny-output-error" ∉ (defaultOnClearError (defaultOnError name el err)).classes
    ∧ (defaultOnClearError (defaultOnError name el err)).innerText = ""
    ∧ ("shiny-output-error" ∉ el.classes → el.innerText = "" →
        defaultOnClearError (defaultOnError name el err) = el) := by
  refine ⟨?_, rfl, ?_⟩
  · simp [defaultOnClearError, defaultOnError, classListRemove, List.mem_filter]
  · intro h1 h2
    cases el with
    | mk cs t w =>
      simp only [defaultOnError, defaultOnClearError, Element.mk.injEq]
      refine ⟨?_, h2.symm, trivial⟩
      exact classListRemove_classListAdd cs "shiny-output-error" h1

/-- Witness for C7 on an element whose pre-error state is clean: the round
trip restores it exactly. -/
theorem error_roundtrip_clears_marker_and_text_witness :
    defaultOnClearError
        (defaultOnError "shiny-tabulator-output"
          { classes := ["shiny-tabulator-output"], innerText := "", widget := none }
          JSVal.undef)
      = { classes := ["shiny-tabulator-output"], innerText := "", widget := none } :=
  (error_roundtrip_clears_marker_and_text "shiny-tabulator-output"
    { classes := ["shiny-tabulator-output"], innerText := "", widget := none }
    JSVal.undef).2.2 (by decide) rfl

/-- Counterexample to claim C7 as stated: an element whose pre-error text is
"hello" does not return to its pre-error state after renderError followed by
clearError under the default handlers — the round trip leaves the text empty
instead of restoring "hello". -/
theorem error_roundtrip_counterexample :
    defaultOnClearError
        (defaultOnError "shiny-tabulator-output"
          { classes := [], innerText := "hello", widget := none } JSVal.undef)
      ≠ { classes := [], innerText := "hello", widget := none } := by
  decide

/-- Claim C1 (amended): for every payload whose columns are pairwise distinct
with length k and every one of whose rows has length k, the render
transformation produces a row-object array with exactly data.length entries,
and each entry's key list is exactly the columns — k keys, no extra, no
missing — with result[columns[i]] = row[i] for every index i; the original
claim omitted distinctness, without which the k-keys guarantee fails (see
the counterexample). -/
theorem zipRowWithColumns_distinct_columns_exact_keys
    (payload : RenderPayload) (k : Nat)
    (hk : payload.columns.length = k)
    (hnd : payload.columns.Nodup)
    (hrows : ∀ row ∈ payload.data, row.length = k) :
    (tabulatorOptions payload).data.length = payload.data.length
    ∧ ∀ row ∈ payload.data,
        (zipRowWithColumns payload.columns row).map Prod.fst = payload.columns
        ∧ ∀ (i : Nat) (c : String), payload.columns[i]? = some c →
            objGet (zipRowWithColumns payload.columns row) c = row[i]? := by
  constructor
  · simp [tabulatorOptions]
  · intro row hrow
    have hlen : row.length = payload.columns.length := by rw [hrows row hrow, hk]
    have hz := zipRowWithColumns_eq_zip payload.columns row hnd (le_of_eq hlen)
    rw [hlen, List.take_length] at hz
    constructor
    · rw [hz, map_fst_zip_take, hlen, List.take_length]
    · intro i c hc
      rw [hz]
      exact objGet_zip_nodup payload.columns row i c hnd hc

/-- Witness for C1 at the spec's end-to-end example payload. -/
theorem zipRowWithColumns_distinct_columns_exact_keys_witness :
    (zipRowWithColumns ["name", "mpg"] [JSVal.str "Mazda RX4", JSVal.num 21]).map Prod.fst
      = ["name", "mpg"] :=
  ((zipRowWithColumns_distinct_columns_exact_keys
      { columns := ["name", "mpg"],
        data := [[JSVal.str "Mazda RX4", JSVal.num 21]],
        type_hints := [TypeHint.str "character", TypeHint.str "numeric"] } 2 rfl
      (by decide) (by decide)).2
    [JSVal.str "Mazda RX4", JSVal.num 21] (by decide)).1

/-- Counterexample to claim C1 as stated: with duplicate column names
["a", "a"] and the length-matching row [1, 2] the produced row object is the
single-entry object mapping "a" to 2 — one key rather than k = 2, and
result[columns[0]] is 2 (the last occurrence's value), not row[0] = 1. -/
theorem zipRowWithColumns_dup_columns_counterexample :
    zipRowWithColumns ["a", "a"] [JSVal.num 1, JSVal.num 2] = [("a", JSVal.num 2)]
    ∧ ((zipRowWithColumns ["a", "a"] [JSVal.num 1, JSVal.num 2]).map Prod.fst).length ≠ 2 := by
  decide

/-- Claim C9: when the columns array contains duplicate names (rows aligned
in length), the produced row object has pairwise-distinct keys whose set is
exactly the set of column names but strictly fewer than columns.length, and
every name — in particular each duplicated one — is bound to the row value
at the index of the name's last occurrence, so the exactly-k-keys guarantee
holds only for pairwise-distinct column names. -/
theorem zipRowWithColumns_duplicate_columns_last_wins
    (cols : List String) (row : List JSVal)
    (hlen : row.length = cols.length) (hdup : ¬ cols.Nodup) :
    ((zipRowWithColumns cols row).map Prod.fst).Nodup
    ∧ (∀ s, s ∈ (zipRowWithColumns cols row).map Prod.fst ↔ s ∈ cols)
    ∧ ((zipRowWithColumns cols row).map Prod.fst).length < cols.length
    ∧ (∀ s, objGet (zipRowWithColumns cols row) s
        = (lastOccIdx cols s).bind (fun j => row[j]?)) := by
  have hzq : zipRowWithColumns cols row = objSetAll [] (cols.zip row) := by
    rw [zipRowWithColumns_eq, pairKeys_eq_zip cols row (le_of_eq hlen)]
  have hnodup : ((zipRowWithColumns cols row).map Prod.fst).Nodup := by
    rw [hzq]; exact keys_objSetAll_nodup _ [] (by simp)
  have hmem : ∀ s, s ∈ (zipRowWithColumns cols row).map Prod.fst ↔ s ∈ cols := by
    intro s
    rw [hzq, mem_keys_objSetAll, map_fst_zip_take, hlen, List.take_length]
    simp
  refine ⟨hnodup, hmem, ?_, ?_⟩
  · have h1 : ((zipRowWithColumns cols row).map Prod.fst).toFinset = cols.toFinset := by
      ext a
      simp only [List.mem_toFinset]
      exact hmem a
    have hcardeq : ((zipRowWithColumns cols row).map Prod.fst).length = cols.dedup.length := by
      calc ((zipRowWithColumns cols row).map Prod.fst).length
          = ((zipRowWithColumns cols row).map Prod.fst).toFinset.card :=
            (List.toFinset_card_of_nodup hnodup).symm
        _ = cols.toFinset.card := by rw [h1]
        _ = cols.dedup.length := by rw [List.card_toFinset]
    rw [hcardeq]
    rcases Nat.lt_or_ge cols.dedup.length cols.length with h | h
    · exact h
    · exfalso
      have hle : cols.dedup.length ≤ cols.length := (List.dedup_sublist cols).length_le
      have heq : cols.dedup = cols :=
        (List.dedup_sublist cols).eq_of_length (le_antisymm hle h)
      exact hdup (heq ▸ cols.nodup_dedup)
  · intro s
    exact zipRowWithColumns_get_lastOcc cols row s hlen

/-- Witness for C9 at the duplicated columns ["a", "a"]: the single key "a"
holds the value at the last occurrence's index. -/
theorem zipRowWithColumns_duplicate_columns_last_wins_witness :
    objGet (zipRowWithColumns ["a", "a"] [JSVal.num 1, JSVal.num 2]) "a"
      = (lastOccIdx ["a", "a"] "a").bind (fun j => [JSVal.num 1, JSVal.num 2][j]?) :=
  (zipRowWithColumns_duplicate_columns_last_wins ["a", "a"] [JSVal.num 1, JSVal.num 2]
    rfl (by decide)).2.2.2 "a"

/-- Claim C10 (amended): the row transformation is total — a length mismatch
never raises — and for pairwise-distinct column names none of which is the
literal string "undefined": a row shorter than (or equal to) columns yields
the row object pairing only the first row.length columns, omitting the
trailing column keys, while a longer row yields exactly the column keys plus
one extra key "undefined" holding the last surplus value and still maps each
column name to its positional row value; the original claim's extra-key
count fails when a column is itself named "undefined" (see the
counterexample). -/
theorem zipRowWithColumns_length_mismatch_total
    (cols : List String) (row : List JSVal)
    (hnd : cols.Nodup) (hu : "undefined" ∉ cols) :
    (row.length ≤ cols.length →
      zipRowWithColumns cols row = (cols.take row.length).zip row)
    ∧ (cols.length < row.length →
      (zipRowWithColumns cols row).map Prod.fst = cols ++ ["undefined"]
      ∧ objGet (zipRowWithColumns cols row) "undefined" = (row.drop cols.length).getLast?
      ∧ (∀ (i : Nat) (c : String), cols[i]? = some c →
          objGet (zipRowWithColumns cols row) c = row[i]?)) := by
  constructor
  · intro hle
    exact zipRowWithColumns_eq_zip cols row hnd hle
  · intro hlt
    have htklen : (row.take cols.length).length = cols.length := by
      rw [List.length_take]
      exact min_eq_left (le_of_lt hlt)
    have hAkeys : (cols.zip (row.take cols.length)).map Prod.fst = cols := by
      rw [map_fst_zip_take, htklen, List.take_length]
    rcases hd : row.drop cols.length with _ | ⟨v₀, vs⟩
    · exfalso
      have hl0 : (row.drop cols.length).length = row.length - cols.length :=
        List.length_drop _ _
      rw [hd] at hl0
      simp only [List.length_nil] at hl0
      omega
    · have hobj : zipRowWithColumns cols row
          = cols.zip (row.take cols.length) ++ [("undefined", vs.getLastD v₀)] := by
        rw [zipRowWithColumns_eq, pairKeys_long cols row hlt, hd, objSetAll_append]
        have hA : objSetAll [] (cols.zip (row.take cols.length))
            = cols.zip (row.take cols.length) := by
          have h := objSetAll_fresh (cols.zip (row.take cols.length)) []
            (by rw [hAkeys]; exact hnd)
            (by intro k _; simp)
          simpa using h
        rw [hA, List.map_cons]
        show objSetAll (objSet (cols.zip (row.take cols.length)) "undefined" v₀)
            (vs.map (fun v => ("undefined", v))) = _
        rw [objSet_of_not_mem _ _ _ (by rw [hAkeys]; exact hu)]
        exact objSetAll_const_key vs (cols.zip (row.take cols.length)) "undefined" v₀
          (by rw [hAkeys]; exact hu)
      refine ⟨?_, ?_, ?_⟩
      · rw [hobj, List.map_append, hAkeys]
        rfl
      · rw [hobj, objGet_append,
          objGet_eq_none_of_not_mem _ _ (by rw [hAkeys]; exact hu)]
        show objGet [("undefined", vs.getLastD v₀)] "undefined" = (v₀ :: vs).getLast?
        rw [getLast?_cons_getLastD, objGet_cons]
        simp [objGet]
      · intro i c hc
        have hi : i < cols.length := by
          by_contra hcon
          push_neg at hcon
          rw [List.getElem?_eq_none hcon] at hc
          exact Option.noConfusion hc
        have hA : objGet (cols.zip (row.take cols.length)) c = row[i]? := by
          rw [objGet_zip_nodup cols (row.take cols.length) i c hnd hc]
          exact List.getElem?_take_of_lt hi
        obtain ⟨v, hv⟩ : ∃ v, row[i]? = some v := by
          have hi' : i < row.length := lt_trans hi hlt
          rw [List.getElem?_eq_getElem hi']
          exact ⟨_, rfl⟩
        rw [hobj, objGet_append, hA, hv]

/-- Witness for C10 at the single column "a" with a longer row: the key list
is the column plus the one extra key "undefined". -/
theorem zipRowWithColumns_length_mismatch_total_witness :
    (zipRowWithColumns ["a"] [JSVal.num 1, JSVal.num 2]).map Prod.fst
      = ["a"] ++ ["undefined"] :=
  ((zipRowWithColumns_length_mismatch_total ["a"] [JSVal.num 1, JSVal.num 2]
    (by decide) (by decide)).2 (by decide)).1

/-- Counterexample to claim C10 as stated: with the single column literally
named "undefined" and a two-element row, the surplus value creates no extra
key at all — the row object ends with exactly one key (the column's own),
holding the last surplus value, instead of the promised column key plus one
extra key. -/
theorem zipRowWithColumns_undefined_column_counterexample :
    zipRowWithColumns ["undefined"] [JSVal.num 1, JSVal.num 2]
      = [("undefined", JSVal.num 2)]
    ∧ ((zipRowWithColumns ["undefined"] [JSVal.num 1, JSVal.num 2]).map Prod.fst).length
        ≠ (["undefined"] : List String).length + 1 := by
  decide
